import Mathlib

/-!
Shallow embedding of the raspi-code row-following robot (frame_processor.py,
driving_controller.py, cv_settings.py) and proofs about the claims of its
specification.  Python integers are modelled by ℤ, Python floats by exact
rational arithmetic over ℚ (the quantities involved are far from the scale at
which IEEE rounding could change any compared outcome), Python `None` by
`Option`.
-/

/-- Python's `int()` conversion applied to an exact rational value: truncation
toward zero. -/
def pyInt (q : ℚ) : ℤ := if 0 ≤ q then ⌊q⌋ else ⌈q⌉

theorem pyInt_intCast (n : ℤ) : pyInt (n : ℚ) = n := by
  unfold pyInt
  split <;> simp

theorem pyInt_eval (q : ℚ) (n : ℤ) (h : q = (n : ℚ)) : pyInt q = n := by
  rw [h, pyInt_intCast]

/-- Integer pixel coordinate (frame_processor.py, class Point). -/
structure Point where
  x : ℤ
  y : ℤ
deriving DecidableEq, Repr

/-- Geometry primitive (frame_processor.py, class Line): a pydantic model with
fields `start`, `end` and an optional `r2` defaulting to `None`.  `end` is a
Lean keyword, so the field is written «end».  The pydantic constructor stores
the two endpoints exactly as passed, without any swapping. -/
structure Line where
  start : Point
  «end» : Point
  r2 : Option ℚ := none
deriving DecidableEq, Repr

/-- Line.midpoint (frame_processor.py lines 101-108):
`Point(x=int((start.x+end.x)/2), y=int((start.y+end.y)/2))`. -/
def Line.midpoint (l : Line) : Point :=
  ⟨pyInt ((l.start.x + l.«end».x : ℤ) / 2 : ℚ), pyInt ((l.start.y + l.«end».y : ℤ) / 2 : ℚ)⟩

/-- Line.invert (frame_processor.py lines 110-114) swaps the endpoints; the
Python method mutates the line in place, modelled by returning the swapped
line. -/
def Line.invert (l : Line) : Line :=
  { l with start := l.«end», «end» := l.start }

/-- Line.avg_line (frame_processor.py lines 144-157): component-wise midpoint
of the two lines' endpoints; the returned line's `r2` is left at its `None`
default. -/
def Line.avg_line (line1 line2 : Line) : Line :=
  { start := ⟨pyInt ((line1.start.x + line2.start.x : ℤ) / 2 : ℚ),
              pyInt ((line1.start.y + line2.start.y : ℤ) / 2 : ℚ)⟩
    «end» := ⟨pyInt ((line1.«end».x + line2.«end».x : ℤ) / 2 : ℚ),
              pyInt ((line1.«end».y + line2.«end».y : ℤ) / 2 : ℚ)⟩
    r2 := none }

/-- Line used by the C10 counterexample: a line whose `r2` field is set, as for
every line returned by get_best_fit_line. -/
def c10Line : Line := ⟨⟨0, 1⟩, ⟨0, 0⟩, some 1⟩

/-- Claim C10 counterexample: avg_line(a, a) does not equal a when a carries an
r2 value, because the averaged line's r2 field is reset to None while pydantic
equality compares all three fields. -/
theorem c10_avg_line_not_idempotent_with_r2 :
    Line.avg_line c10Line c10Line ≠ c10Line := by
  intro h
  simpa [Line.avg_line, c10Line] using congrArg Line.r2 h

theorem pyInt_half_same (x : ℤ) : pyInt (((x + x : ℤ) : ℚ) / 2) = x :=
  pyInt_eval _ _ (by push_cast; ring)

/-- Claim C10 (amended): avg_line is commutative, and avg_line(a, a) returns
a's endpoints unchanged with the r2 field cleared to None — hence it equals a
exactly when a's r2 is unset. -/
theorem c10_avg_line_comm_and_geom_idem (a b : Line) :
    Line.avg_line a b = Line.avg_line b a
    ∧ Line.avg_line a a = { start := a.start, «end» := a.«end», r2 := none } := by
  constructor
  · simp [Line.avg_line, Line.mk.injEq, Point.mk.injEq, Int.add_comm]
  · simp [Line.avg_line, Line.mk.injEq, Point.mk.injEq, pyInt_half_same, pyInt_intCast]

/-- Sum of the y coordinates of a pixel list; pixels are (y, x) pairs exactly
as produced by `zip(*pixels)` in get_best_fit_line (frame_processor.py line
165). -/
def sumY (pixels : List (ℤ × ℤ)) : ℚ := (pixels.map fun p => ((p.1 : ℚ))).sum

/-- Sum of the x coordinates of a pixel list. -/
def sumX (pixels : List (ℤ × ℤ)) : ℚ := (pixels.map fun p => ((p.2 : ℚ))).sum

/-- Sum of the squared y coordinates of a pixel list. -/
def sumYY (pixels : List (ℤ × ℤ)) : ℚ := (pixels.map fun p => ((p.1 : ℚ)) ^ 2).sum

/-- Sum of the products y*x over a pixel list. -/
def sumXY (pixels : List (ℤ × ℤ)) : ℚ := (pixels.map fun p => ((p.1 : ℚ)) * ((p.2 : ℚ))).sum

/-- Coefficients (m, b) of the degree-1 least-squares fit x = m*y + b computed
by `np.polyfit(y, x, 1)` (frame_processor.py line 166), written as the
normal-equation solution over exact rationals. -/
def polyfitCoeffs (pixels : List (ℤ × ℤ)) : ℚ × ℚ :=
  let n : ℚ := pixels.length
  let m := (n * sumXY pixels - sumY pixels * sumX pixels) /
           (n * sumYY pixels - (sumY pixels) ^ 2)
  (m, (sumX pixels - m * sumY pixels) / n)

/-- Residual sum of squares `res` returned by `np.polyfit(y, x, 1, full=True)`
(frame_processor.py line 166): the sum of the squared residuals of the fit. -/
def polyfitResidual (pixels : List (ℤ × ℤ)) : ℚ :=
  (pixels.map fun p =>
    ((p.2 : ℚ) - ((polyfitCoeffs pixels).1 * (p.1 : ℚ) + (polyfitCoeffs pixels).2)) ^ 2).sum

/-- Mean of the y coordinates, `np.mean(y)` (frame_processor.py line 170). -/
def meanY (pixels : List (ℤ × ℤ)) : ℚ := sumY pixels / pixels.length

/-- Total variance term `np.sum((y - np.mean(y)) ** 2)` actually used by the
code to normalize R² (frame_processor.py line 170). -/
def totalVarY (pixels : List (ℤ × ℤ)) : ℚ :=
  (pixels.map fun p => ((p.1 : ℚ) - meanY pixels) ^ 2).sum

/-- Mean of the x coordinates (claim-side quantity, not computed by the
code). -/
def meanX (pixels : List (ℤ × ℤ)) : ℚ := sumX pixels / pixels.length

/-- Total variance of the x values around their mean — the normalizer the
specification claims R² is computed against. -/
def totalVarX (pixels : List (ℤ × ℤ)) : ℚ :=
  (pixels.map fun p => ((p.2 : ℚ) - meanX pixels) ^ 2).sum

/-- Smallest y coordinate `min(y)` of the pixel list (0 on the empty list,
which the code never passes). -/
def minPixelY (pixels : List (ℤ × ℤ)) : ℤ := ((pixels.map Prod.fst).min?).getD 0

/-- Largest y coordinate `max(y)` of the pixel list. -/
def maxPixelY (pixels : List (ℤ × ℤ)) : ℤ := ((pixels.map Prod.fst).max?).getD 0

/-- get_best_fit_line (frame_processor.py lines 159-180): least-squares fit of
x = m*y + b, R² normalized by `np.sum((y - np.mean(y)) ** 2)`, endpoints at the
fitted x for the extreme y values, swapped before construction so that `start`
is the endpoint with the larger y. -/
def get_best_fit_line (pixels : List (ℤ × ℤ)) : Line :=
  let m := (polyfitCoeffs pixels).1
  let b := (polyfitCoeffs pixels).2
  let r2 := 1 - polyfitResidual pixels / totalVarY pixels
  let startPt : Point := ⟨pyInt (m * (minPixelY pixels : ℚ) + b), minPixelY pixels⟩
  let endPt : Point := ⟨pyInt (m * (maxPixelY pixels : ℚ) + b), maxPixelY pixels⟩
  if startPt.y < endPt.y then { start := endPt, «end» := startPt, r2 := some r2 }
  else { start := startPt, «end» := endPt, r2 := some r2 }

theorem get_best_fit_line_r2 (pixels : List (ℤ × ℤ)) :
    (get_best_fit_line pixels).r2
      = some (1 - polyfitResidual pixels / totalVarY pixels) := by
  unfold get_best_fit_line
  dsimp only
  split <;> rfl

/-- Claim C5 counterexample: the Line constructor itself does not enforce the
orientation invariant — it stores the endpoints exactly as passed, so a line
constructed with start.y < end.y keeps start.y < end.y. -/
theorem c5_constructor_counterexample :
    ¬ ((Line.mk ⟨0, 0⟩ ⟨0, 1⟩ none).start.y ≥ (Line.mk ⟨0, 0⟩ ⟨0, 1⟩ none).«end».y) := by
  decide

/-- Claim C5 (amended): every line returned by get_best_fit_line satisfies
start.y ≥ end.y; the swap is performed on the fitted endpoints just before the
Line is constructed, not by the Line constructor itself. -/
theorem c5_best_fit_line_orientation (pixels : List (ℤ × ℤ)) :
    (get_best_fit_line pixels).start.y ≥ (get_best_fit_line pixels).«end».y := by
  unfold get_best_fit_line
  dsimp only
  split
  · next h => exact le_of_lt h
  · next h => exact not_lt.mp h

theorem sum_residuals_eq (pixels : List (ℤ × ℤ)) (m b : ℚ) :
    (pixels.map fun p => (p.2 : ℚ) - (m * (p.1 : ℚ) + b)).sum
      = sumX pixels - (m * sumY pixels + (pixels.length : ℚ) * b) := by
  induction pixels with
  | nil => simp [sumX, sumY]
  | cons hd tl ih =>
    simp only [List.map_cons, List.sum_cons, ih, sumX, sumY, List.length_cons]
    push_cast
    ring

theorem sum_weighted_residuals_eq (pixels : List (ℤ × ℤ)) (m b : ℚ) :
    (pixels.map fun p => (p.1 : ℚ) * ((p.2 : ℚ) - (m * (p.1 : ℚ) + b))).sum
      = sumXY pixels - (m * sumYY pixels + b * sumY pixels) := by
  induction pixels with
  | nil => simp [sumXY, sumYY, sumY]
  | cons hd tl ih =>
    simp only [List.map_cons, List.sum_cons, ih, sumXY, sumYY, sumY, List.length_cons]
    ring

/-- Pixel set used for the C6 counterexample and witness: three pixels (y, x)
that are not collinear and whose x and y spreads differ. -/
def c6pixels : List (ℤ × ℤ) := [(0, 0), (1, 0), (2, 3)]

/-- Claim C6 counterexample: on the concrete pixel set c6pixels the code's R²
(normalized against the variance of the y values) is 1/4, while the value the
claim describes (normalized against the variance of the x values) is 3/4, so
the returned r2 is not 1 − RSS / Σ(x − mean x)². -/
theorem c6_r2_not_x_normalized :
    (get_best_fit_line c6pixels).r2 = some (1 / 4)
    ∧ 1 - polyfitResidual c6pixels / totalVarX c6pixels = 3 / 4
    ∧ (get_best_fit_line c6pixels).r2
        ≠ some (1 - polyfitResidual c6pixels / totalVarX c6pixels) := by
  have hres : polyfitResidual c6pixels = 3 / 2 := by
    norm_num [polyfitResidual, polyfitCoeffs, sumX, sumY, sumXY, sumYY, c6pixels]
  have hvy : totalVarY c6pixels = 2 := by
    norm_num [totalVarY, meanY, sumY, c6pixels]
  have hvx : totalVarX c6pixels = 6 := by
    norm_num [totalVarX, meanX, sumX, c6pixels]
  have hr2 : (get_best_fit_line c6pixels).r2 = some (1 / 4) := by
    rw [get_best_fit_line_r2, hres, hvy]; norm_num
  refine ⟨hr2, by rw [hres, hvx]; norm_num, ?_⟩
  rw [hr2, hres, hvx]
  norm_num

/-- Claim C6 (amended): get_best_fit_line fits x = m·y + b by ordinary least
squares — its coefficients satisfy both normal equations, i.e. the residuals
are orthogonal to the constant and to the y regressor — and returns r2 equal to
1 minus the residual sum of squares divided by the total variance of the **y**
values around their mean (not the x values). -/
theorem c6_ols_fit_r2_y_normalized (pixels : List (ℤ × ℤ))
    (hn : (pixels.length : ℚ) ≠ 0)
    (hD : (pixels.length : ℚ) * sumYY pixels - (sumY pixels) ^ 2 ≠ 0) :
    (pixels.map fun p =>
        (p.2 : ℚ) - ((polyfitCoeffs pixels).1 * (p.1 : ℚ) + (polyfitCoeffs pixels).2)).sum = 0
    ∧ (pixels.map fun p =>
        (p.1 : ℚ) * ((p.2 : ℚ) - ((polyfitCoeffs pixels).1 * (p.1 : ℚ) + (polyfitCoeffs pixels).2))).sum = 0
    ∧ (get_best_fit_line pixels).r2
        = some (1 - polyfitResidual pixels / totalVarY pixels) := by
  refine ⟨?_, ?_, get_best_fit_line_r2 pixels⟩
  · rw [sum_residuals_eq]
    simp only [polyfitCoeffs]
    field_simp
    ring
  · rw [sum_weighted_residuals_eq]
    simp only [polyfitCoeffs]
    field_simp
    ring

/-- Witness for the C6 theorem at the concrete pixel set c6pixels. -/
theorem c6_ols_fit_r2_y_normalized_witness :
    ((c6pixels.length : ℚ) ≠ 0
      ∧ (c6pixels.length : ℚ) * sumYY c6pixels - (sumY c6pixels) ^ 2 ≠ 0)
    ∧ ((c6pixels.map fun p =>
          (p.2 : ℚ) - ((polyfitCoeffs c6pixels).1 * (p.1 : ℚ) + (polyfitCoeffs c6pixels).2)).sum = 0
        ∧ (c6pixels.map fun p =>
          (p.1 : ℚ) * ((p.2 : ℚ) - ((polyfitCoeffs c6pixels).1 * (p.1 : ℚ) + (polyfitCoeffs c6pixels).2))).sum = 0
        ∧ (get_best_fit_line c6pixels).r2
            = some (1 - polyfitResidual c6pixels / totalVarY c6pixels)) :=
  ⟨⟨by norm_num [c6pixels], by norm_num [sumYY, sumY, c6pixels]⟩,
   c6_ols_fit_r2_y_normalized c6pixels (by norm_num [c6pixels])
     (by norm_num [sumYY, sumY, c6pixels])⟩

/-- Predicate of frame_processor.py line 295: `line.midpoint().x > width / 2`,
with Python's float division of the integer frame width by 2. -/
def beyondCenterline (width : ℤ) (l : Line) : Bool :=
  decide ((width : ℚ) / 2 < (l.midpoint.x : ℚ))

/-- Sort of frame_processor.py line 288: the surviving lines sorted (stably,
like Python's list.sort) by the x coordinate of their midpoint. -/
def sortByMidpointX (lines : List Line) : List Line :=
  List.insertionSort (fun a b => a.midpoint.x ≤ b.midpoint.x) lines

/-- Loop of frame_processor.py lines 291-298: enumerate the sorted lines,
stopping at the first whose midpoint is beyond the centerline; its index
becomes right_line_index and the preceding index left_line_index, both
remaining -1 when no line qualifies. -/
def scanForRowIndices (p : Line → Bool) (idx : ℤ) : List Line → ℤ × ℤ
  | [] => (-1, -1)
  | l :: rest => if p l then (idx - 1, idx) else scanForRowIndices p (idx + 1) rest

/-- Result of the line-selection step of process_frame. -/
structure RowSelection where
  leftLine : Option Line
  rightLine : Option Line
  lostContext : Bool
deriving DecidableEq, Repr

/-- Line-selection tail of process_frame (frame_processor.py lines 287-298 and
336-342): sort by midpoint x, scan for the first line beyond the centerline,
index the sorted list with the recorded indices when nonnegative, and set
lostContext iff either index is still -1. -/
def processFrameLineSelection (width : ℤ) (lines : List Line) : RowSelection :=
  let sorted := sortByMidpointX lines
  let indices := scanForRowIndices (beyondCenterline width) 0 sorted
  { leftLine := if 0 ≤ indices.1 then sorted[indices.1.toNat]? else none
    rightLine := if 0 ≤ indices.2 then sorted[indices.2.toNat]? else none
    lostContext := indices.1 < 0 || indices.2 < 0 }

theorem scanForRowIndices_eq (p : Line → Bool) (L : List Line) :
    ∀ idx : ℤ, scanForRowIndices p idx L =
      if (L.dropWhile fun l => !p l) = [] then (-1, -1)
      else (((L.takeWhile fun l => !p l).length : ℤ) + idx - 1,
            ((L.takeWhile fun l => !p l).length : ℤ) + idx) := by
  induction L with
  | nil => intro idx; simp [scanForRowIndices]
  | cons l rest ih =>
    intro idx
    by_cases h : p l
    · simp [scanForRowIndices, h, List.dropWhile_cons, List.takeWhile_cons]
    · rw [List.dropWhile_cons, List.takeWhile_cons]
      simp only [scanForRowIndices, h, Bool.not_false, if_false, Bool.not_true,
        if_true, ite_false, ite_true, eq_self_iff_true, Bool.false_eq_true]
      rw [ih (idx + 1)]
      by_cases hd : (rest.dropWhile fun l => !p l) = []
      · simp [hd, h]
      · simp only [hd, if_false, h, List.length_cons, ite_false, Bool.false_eq_true,
          Prod.mk.injEq]
        constructor <;> push_cast <;> ring

theorem find?_eq_head?_dropWhile (p : Line → Bool) (L : List Line) :
    L.find? p = (L.dropWhile fun l => !p l).head? := by
  induction L with
  | nil => rfl
  | cons l rest ih =>
    by_cases h : p l
    · simp [List.find?_cons, h, List.dropWhile_cons]
    · simp [List.find?_cons, h, List.dropWhile_cons, ih]

/-- Claim C1: after sorting the surviving lines by midpoint x, process_frame
returns as rightLine the first line in sorted order whose midpoint x exceeds
half the frame width, as leftLine its immediate predecessor in sorted order
when the right line exists (the last line of the prefix that does not cross
the midline), both None when no line crosses the midline, and lostContext is
true iff leftLine or rightLine is unset. -/
theorem c1_process_frame_selects_straddling_lines (width : ℤ) (lines : List Line) :
    (processFrameLineSelection width lines).rightLine
        = (sortByMidpointX lines).find? (beyondCenterline width)
    ∧ (processFrameLineSelection width lines).leftLine
        = (if ((sortByMidpointX lines).find? (beyondCenterline width)).isSome
           then ((sortByMidpointX lines).takeWhile fun l => ! beyondCenterline width l).getLast?
           else none)
    ∧ ((processFrameLineSelection width lines).lostContext = true
        ↔ (processFrameLineSelection width lines).leftLine = none
          ∨ (processFrameLineSelection width lines).rightLine = none) := by
  unfold processFrameLineSelection
  dsimp only
  rw [scanForRowIndices_eq]
  set p := beyondCenterline width with hp
  set S := sortByMidpointX lines with hS
  set tw := S.takeWhile (fun l => !p l) with htw
  set dw := S.dropWhile (fun l => !p l) with hdw
  have hsplit : tw ++ dw = S := by
    rw [htw, hdw]; exact List.takeWhile_append_dropWhile _ _
  have hfind : S.find? p = dw.head? := by
    rw [hdw]; exact find?_eq_head?_dropWhile p S
  by_cases hd : dw = []
  · simp [hd, hfind]
  · obtain ⟨a, ha⟩ : ∃ a, dw.head? = some a :=
      Option.ne_none_iff_exists'.mp (by rwa [ne_eq, List.head?_eq_none_iff])
    rw [if_neg hd]
    dsimp only
    simp only [add_zero]
    have hnn : (0 : ℤ) ≤ (tw.length : ℤ) := Int.natCast_nonneg _
    have htoNatLen : ((tw.length : ℤ)).toNat = tw.length := by omega
    have hrget : S[tw.length]? = dw.head? := by
      conv_lhs => rw [← hsplit]
      rw [List.getElem?_append_right (le_refl tw.length)]
      simp only [Nat.sub_self]
      exact (List.head?_eq_getElem? dw).symm
    have hR : (if (0 : ℤ) ≤ (tw.length : ℤ) then S[((tw.length : ℤ)).toNat]? else none)
        = S.find? p := by
      rw [if_pos hnn, htoNatLen, hrget, hfind]
    by_cases ht : tw = []
    · have hlen : tw.length = 0 := by rw [ht]; rfl
      refine ⟨hR, ?_, ?_⟩
      · rw [if_neg (by omega), if_pos (by rw [hfind, ha]; rfl), ht]
        rfl
      · rw [if_neg (by omega), hR, hfind, ha]
        simp [hlen]
    · have htl : 0 < tw.length := List.length_pos.mpr ht
      obtain ⟨b, hb⟩ : ∃ b, tw.getLast? = some b :=
        Option.ne_none_iff_exists'.mp (by rwa [ne_eq, List.getLast?_eq_none_iff])
      have hlget : S[tw.length - 1]? = tw.getLast? := by
        conv_lhs => rw [← hsplit]
        rw [List.getElem?_append, if_pos (by omega), List.getLast?_eq_getElem?]
      have hL : (if (0 : ℤ) ≤ (tw.length : ℤ) - 1 then S[((tw.length : ℤ) - 1).toNat]? else none)
          = tw.getLast? := by
        rw [if_pos (by omega)]
        have hcast : ((tw.length : ℤ) - 1).toNat = tw.length - 1 := by omega
        rw [hcast, hlget]
      refine ⟨hR, ?_, ?_⟩
      · rw [hL, if_pos (by rw [hfind, ha]; rfl)]
      · rw [hL, hR, hfind, ha, hb]
        simp only [Bool.or_eq_true, decide_eq_true_eq]
        constructor
        · rintro (habs | habs) <;> omega
        · rintro (habs | habs) <;> simp at habs

/-- Driving directions (driving_controller.py lines 13-15): Python booleans. -/
def DrivingDirection.FORWARD : Bool := true

/-- Reverse driving direction. -/
def DrivingDirection.BACKWARD : Bool := false

/-- Camera roles (driving_controller.py lines 17-19): Python booleans. -/
def CameraDirection.FRONT : Bool := true

/-- Rear camera role. -/
def CameraDirection.REAR : Bool := false

/-- Cultivation-cycle stages (driving_controller.py lines 21-28), an IntEnum
with values 0..6 in declaration order. -/
inductive DrivingStage where
  | CENTERING_HOE
  | LOWERING_HOE
  | DRIVING_NORMAL
  | DRIVING_FROM_REARVIEW
  | RAISING_HOE
  | LEAVING_CURRENT_ROW
  | SEARCHING_FOR_NEXT_ROW
deriving DecidableEq, BEq, Repr, Fintype

/-- Declaration-order member list `list(cls)` of the DrivingStage IntEnum. -/
def DrivingStage.members : List DrivingStage :=
  [.CENTERING_HOE, .LOWERING_HOE, .DRIVING_NORMAL, .DRIVING_FROM_REARVIEW,
   .RAISING_HOE, .LEAVING_CURRENT_ROW, .SEARCHING_FOR_NEXT_ROW]

/-- Integer value of each DrivingStage member as declared in the IntEnum. -/
def DrivingStage.value : DrivingStage → ℤ
  | .CENTERING_HOE => 0
  | .LOWERING_HOE => 1
  | .DRIVING_NORMAL => 2
  | .DRIVING_FROM_REARVIEW => 3
  | .RAISING_HOE => 4
  | .LEAVING_CURRENT_ROW => 5
  | .SEARCHING_FOR_NEXT_ROW => 6

/-- DrivingStage.next (driving_controller.py lines 30-34):
`members[(members.index(current) + 1) % len(members)]`. -/
def DrivingStage.next (current : DrivingStage) : DrivingStage :=
  DrivingStage.members.getD
    ((DrivingStage.members.indexOf current + 1) % DrivingStage.members.length)
    .CENTERING_HOE

/-- Mutable controller state touched by DrivingController.advanceStage:
current stage and the overall/current driving directions (the wall-clock
`lastStageChange` stamp is not represented). -/
structure StageState where
  currentStage : DrivingStage
  overallDrivingDirection : Bool
  currentDrivingDirection : Bool
deriving DecidableEq, Repr, Fintype

/-- DrivingController.advanceStage (driving_controller.py lines 87-96): step
the stage to its successor; on entering LEAVING_CURRENT_ROW flip the overall
driving direction and reset the current driving direction to it. -/
def advanceStage (st : StageState) : StageState :=
  let s := DrivingStage.next st.currentStage
  if s = DrivingStage.LEAVING_CURRENT_ROW then
    { currentStage := s
      overallDrivingDirection := !st.overallDrivingDirection
      currentDrivingDirection := !st.overallDrivingDirection }
  else
    { st with currentStage := s }

/-- Claim C4: next maps every stage to its successor in declared order and
wraps the last stage back to the first; advancing seven times from any state
returns to the same stage with overallDrivingDirection flipped, the flip
happens exactly once over the seven advances, it happens precisely at the
transition into LEAVING_CURRENT_ROW, and that transition also resets
currentDrivingDirection to the new overall direction. -/
theorem c4_driving_stage_cycle :
    (DrivingStage.next .CENTERING_HOE = .LOWERING_HOE
      ∧ DrivingStage.next .LOWERING_HOE = .DRIVING_NORMAL
      ∧ DrivingStage.next .DRIVING_NORMAL = .DRIVING_FROM_REARVIEW
      ∧ DrivingStage.next .DRIVING_FROM_REARVIEW = .RAISING_HOE
      ∧ DrivingStage.next .RAISING_HOE = .LEAVING_CURRENT_ROW
      ∧ DrivingStage.next .LEAVING_CURRENT_ROW = .SEARCHING_FOR_NEXT_ROW
      ∧ DrivingStage.next .SEARCHING_FOR_NEXT_ROW = .CENTERING_HOE)
    ∧ ∀ st : StageState,
        (advanceStage^[7] st).currentStage = st.currentStage
        ∧ (advanceStage^[7] st).overallDrivingDirection = !st.overallDrivingDirection
        ∧ ((List.range 7).filter fun k =>
              (advanceStage^[k + 1] st).overallDrivingDirection
                != (advanceStage^[k] st).overallDrivingDirection).length = 1
        ∧ ∀ k < 7,
            ((advanceStage^[k + 1] st).overallDrivingDirection
                ≠ (advanceStage^[k] st).overallDrivingDirection
              ↔ (advanceStage^[k + 1] st).currentStage = .LEAVING_CURRENT_ROW)
            ∧ ((advanceStage^[k + 1] st).currentStage = .LEAVING_CURRENT_ROW →
                (advanceStage^[k + 1] st).currentDrivingDirection
                  = (advanceStage^[k + 1] st).overallDrivingDirection) := by
  decide

/-- clamp (driving_controller.py lines 354-358):
`max(min(value, max_value), min_value)`. -/
def clamp {α : Type} [LinearOrder α] (value minValue maxValue : α) : α :=
  max (min value maxValue) minValue

/-- Comparison on driving_controller.py line 287:
`drivingState.currentDrivingDirection == DrivingStage.DRIVING_FROM_REARVIEW`.
Python compares the boolean (an int 0 or 1) with the IntEnum member's value. -/
def steeringFromRearview (currentDrivingDirection : Bool) : Bool :=
  decide ((if currentDrivingDirection then (1 : ℤ) else 0)
    = DrivingStage.value DrivingStage.DRIVING_FROM_REARVIEW)

/-- get_hoe_cmd (driving_controller.py lines 360-396).  The returned pair
(stepDelay, 0) stands for the command string `hoe {stepDelay} 0`; `None` is
returned when any input line is absent.  Python's `//` on ints is Euclidean
division for the positive divisor 2, like Lean's `/` on ℤ. -/
def get_hoe_cmd (leftLine rightLine centerLine : Option Line)
    (currentDrivingDirection : Bool) : Option (ℤ × ℤ) :=
  match leftLine, rightLine, centerLine with
  | some lL, some rL, some cL =>
    let avgMidpointX : ℤ := (lL.midpoint.x + rL.midpoint.x) / 2
    let delta : ℤ := avgMidpointX - cL.midpoint.x
    if |delta| < 5 then some (0, 0)
    else
      let maxExpectedDelta : ℚ := 50
      let maxDelay : ℚ := 20000
      let minDelay : ℚ := 5000
      let stepDelayMag : ℤ :=
        pyInt (maxDelay - ((|delta| : ℤ) : ℚ) / maxExpectedDelta * (maxDelay - minDelay))
      let stepDelay : ℤ := if delta ≠ 0 then delta / |delta| * stepDelayMag else 0
      let stepDelay2 : ℤ :=
        if currentDrivingDirection = DrivingDirection.BACKWARD then -stepDelay else stepDelay
      some (stepDelay2, 0)
  | _, _, _ => none

theorem hoeStepDelayMag_eq (d : ℤ) :
    pyInt ((20000 : ℚ) - ((|d| : ℤ) : ℚ) / 50 * ((20000 : ℚ) - 5000))
      = 20000 - 300 * |d| := by
  apply pyInt_eval
  push_cast
  ring

/-- Claim C9: whenever the hoe delta magnitude is at least the 5 px deadzone,
get_hoe_cmd emits a command `hoe s 0` whose step delay s is a nonzero signed
integer, and the zero step delay is emitted exactly when the delta lies inside
the deadzone. -/
theorem c9_hoe_cmd_signed_nonzero (lL rL cL : Line) (d : Bool) :
    (5 ≤ |(lL.midpoint.x + rL.midpoint.x) / 2 - cL.midpoint.x| →
      ∃ s : ℤ, get_hoe_cmd (some lL) (some rL) (some cL) d = some (s, 0) ∧ s ≠ 0)
    ∧ (get_hoe_cmd (some lL) (some rL) (some cL) d = some (0, 0)
        ↔ |(lL.midpoint.x + rL.midpoint.x) / 2 - cL.midpoint.x| < 5) := by
  unfold get_hoe_cmd
  dsimp only
  set delta := (lL.midpoint.x + rL.midpoint.x) / 2 - cL.midpoint.x with hdelta
  by_cases hdz : |delta| < 5
  · rw [if_pos hdz]
    exact ⟨fun h5 => absurd hdz (by omega), by simp [hdz]⟩
  · rw [if_neg hdz]
    have hne : delta ≠ 0 := fun h0 => hdz (by rw [h0]; decide)
    rw [if_pos hne, hoeStepDelayMag_eq delta]
    have hsign : delta / |delta| = 1 ∨ delta / |delta| = -1 := by
      rcases lt_or_gt_of_ne hne with hneg | hpos
      · right
        rw [abs_of_neg hneg, Int.ediv_neg, Int.ediv_self hne]
      · left
        rw [abs_of_pos hpos, Int.ediv_self hne]
    have hmagne : delta / |delta| * (20000 - 300 * |delta|) ≠ 0 := by
      rcases hsign with h | h <;> rw [h] <;> omega
    constructor
    · intro _
      refine ⟨if d = DrivingDirection.BACKWARD
          then -(delta / |delta| * (20000 - 300 * |delta|))
          else delta / |delta| * (20000 - 300 * |delta|), rfl, ?_⟩
      by_cases hb : d = DrivingDirection.BACKWARD
      · simp only [hb, if_true, ite_true, neg_ne_zero]
        exact hmagne
      · simp only [hb, if_false, ite_false]
        exact hmagne
    · constructor
      · intro heq
        exfalso
        have h0 : (if d = DrivingDirection.BACKWARD
            then -(delta / |delta| * (20000 - 300 * |delta|))
            else delta / |delta| * (20000 - 300 * |delta|)) = 0 := by
          have := (Prod.mk.injEq _ _ _ _).mp (Option.some.injEq _ _ ▸ heq :)
          exact this.1
        by_cases hb : d = DrivingDirection.BACKWARD
        · rw [if_pos hb, neg_eq_zero] at h0
          exact hmagne h0
        · rw [if_neg hb] at h0
          exact hmagne h0
      · intro h5
        exact absurd h5 hdz

/-- Vertical detected line at x = 176 spanning the frame height, as
get_best_fit_line produces for a vertical archipelago. -/
def hoeLeftLine : Line := ⟨⟨176, 180⟩, ⟨176, 0⟩, none⟩

/-- Vertical detected line at x = 196 spanning the frame height. -/
def hoeRightLine : Line := ⟨⟨196, 180⟩, ⟨196, 0⟩, none⟩

/-- Center line constructed by process_frame (frame_processor.py lines
308-311) at the working resolution 270x180: a vertical line at x = 135 from
the bottom of the frame to the top. -/
def frameCenterLine : Line := ⟨⟨135, 180⟩, ⟨135, 0⟩, none⟩

theorem hoeLeftLine_midpoint : hoeLeftLine.midpoint = ⟨176, 90⟩ := by
  unfold hoeLeftLine Line.midpoint
  dsimp only
  congr 1 <;> exact pyInt_eval _ _ (by norm_num)

theorem hoeRightLine_midpoint : hoeRightLine.midpoint = ⟨196, 90⟩ := by
  unfold hoeRightLine Line.midpoint
  dsimp only
  congr 1 <;> exact pyInt_eval _ _ (by norm_num)

theorem frameCenterLine_midpoint : frameCenterLine.midpoint = ⟨135, 90⟩ := by
  unfold frameCenterLine Line.midpoint
  dsimp only
  congr 1 <;> exact pyInt_eval _ _ (by norm_num)

/-- Claim C2 failing input: with detected lines at x = 176 and x = 196 the hoe
delta is 51 px — outside the deadzone — and get_hoe_cmd emits step delay 4700,
whose magnitude is below the documented minimum delay 5000: the code contains
no clamp of the step-delay magnitude.  (The wheel-speed half of the claim does
hold; see the final clamps in getDriveCmd.) -/
theorem c2_hoe_step_delay_escapes_clamp :
    (hoeLeftLine.midpoint.x + hoeRightLine.midpoint.x) / 2 - frameCenterLine.midpoint.x = 51
    ∧ get_hoe_cmd (some hoeLeftLine) (some hoeRightLine) (some frameCenterLine)
        DrivingDirection.FORWARD = some (4700, 0)
    ∧ |(4700 : ℤ)| < 5000 := by
  have hdelta : (hoeLeftLine.midpoint.x + hoeRightLine.midpoint.x) / 2
      - frameCenterLine.midpoint.x = 51 := by
    rw [hoeLeftLine_midpoint, hoeRightLine_midpoint, frameCenterLine_midpoint]
    decide
  refine ⟨hdelta, ?_, by decide⟩
  unfold get_hoe_cmd
  dsimp only
  rw [hdelta]
  rw [if_neg (by decide), hoeStepDelayMag_eq, if_pos (by decide : (51 : ℤ) ≠ 0)]
  rw [if_neg (by decide : ¬ DrivingDirection.FORWARD = DrivingDirection.BACKWARD)]
  decide

/-- Witness for the C9 theorem: at the concrete failing-input lines the delta
is 51 ≥ 5 and the emitted step delay is a nonzero signed integer. -/
theorem c9_hoe_cmd_signed_nonzero_witness :
    (5 : ℤ) ≤ |(hoeLeftLine.midpoint.x + hoeRightLine.midpoint.x) / 2
        - frameCenterLine.midpoint.x|
    ∧ ∃ s : ℤ, get_hoe_cmd (some hoeLeftLine) (some hoeRightLine)
        (some frameCenterLine) DrivingDirection.FORWARD = some (s, 0) ∧ s ≠ 0 := by
  have h5 : (5 : ℤ) ≤ |(hoeLeftLine.midpoint.x + hoeRightLine.midpoint.x) / 2
      - frameCenterLine.midpoint.x| := by
    rw [hoeLeftLine_midpoint, hoeRightLine_midpoint, frameCenterLine_midpoint]
    decide
  exact ⟨h5, (c9_hoe_cmd_signed_nonzero hoeLeftLine hoeRightLine frameCenterLine
    DrivingDirection.FORWARD).1 h5⟩

/-- getDriveCmd (driving_controller.py lines 271-352).  The returned pair
(leftSpeed, rightSpeed) stands for the command string
`drive {leftSpeed} {rightSpeed}`; `None` is returned when the left or right
line is absent.  The centerLine argument is used unconditionally by the code,
so it is a plain Line here. -/
def getDriveCmd (leftLine rightLine : Option Line) (centerLine : Line)
    (drivingSpeed : ℚ) (currentDrivingDirection : Bool) : Option (ℤ × ℤ) :=
  match leftLine, rightLine with
  | some lL, some rL =>
    let forwardSpeed := clamp drivingSpeed 0 1
    let avgLine := Line.avg_line lL rL
    let minDeltaX : ℚ := 5
    let maxDeltaX : ℚ := 100
    let deltaX0 : ℚ := ((avgLine.«end».x - centerLine.«end».x : ℤ) : ℚ)
    let deltaX1 : ℚ := if |deltaX0| < minDeltaX then 0 else deltaX0
    let deltaX2 : ℚ :=
      if steeringFromRearview currentDrivingDirection then
        let robotBlindspot : ℚ := 1 / 2
        let correctionFactor : ℚ := 2 + robotBlindspot
        let dxStart : ℚ := ((centerLine.start.x - avgLine.start.x : ℤ) : ℚ)
        (deltaX1 + dxStart * correctionFactor) / correctionFactor
      else deltaX1
    let deltaX := clamp deltaX2 (-maxDeltaX) maxDeltaX
    let pwmLimit : ℚ := 255
    let forwardPwm := pwmLimit * forwardSpeed
    let forward_correction :=
      if currentDrivingDirection = DrivingDirection.FORWARD
      then |deltaX| / maxDeltaX * forwardPwm * 2
      else |deltaX| / maxDeltaX * forwardPwm * (5 / 2)
    let reverse_correction :=
      if currentDrivingDirection = DrivingDirection.FORWARD
      then |deltaX| / maxDeltaX * forwardPwm * (-1)
      else |deltaX| / maxDeltaX * forwardPwm * (-3 / 2)
    let leftCorrection := if 0 < deltaX then forward_correction else reverse_correction
    let rightCorrection := if 0 < deltaX then reverse_correction else forward_correction
    let leftSpeed := pyInt (forwardPwm + leftCorrection)
    let rightSpeed := pyInt (forwardPwm + rightCorrection)
    let pair :=
      if currentDrivingDirection = DrivingDirection.BACKWARD
      then (-rightSpeed, -leftSpeed) else (leftSpeed, rightSpeed)
    some (clamp pair.1 (-255) 255, clamp pair.2 (-255) 255)
  | _, _ => none

/-- Modelled from the spec: §4.2 describes the blind-spot extrapolation of
getDriveCmd as applying exactly when steering uses the rear camera while the
robot nominally drives forward (or vice versa); this variant takes that
condition as an explicit flag and is otherwise identical to getDriveCmd. -/
def getDriveCmdBlindspotFlag (steerRear : Bool) (leftLine rightLine : Option Line)
    (centerLine : Line) (drivingSpeed : ℚ) (currentDrivingDirection : Bool) :
    Option (ℤ × ℤ) :=
  match leftLine, rightLine with
  | some lL, some rL =>
    let forwardSpeed := clamp drivingSpeed 0 1
    let avgLine := Line.avg_line lL rL
    let minDeltaX : ℚ := 5
    let maxDeltaX : ℚ := 100
    let deltaX0 : ℚ := ((avgLine.«end».x - centerLine.«end».x : ℤ) : ℚ)
    let deltaX1 : ℚ := if |deltaX0| < minDeltaX then 0 else deltaX0
    let deltaX2 : ℚ :=
      if steerRear then
        let robotBlindspot : ℚ := 1 / 2
        let correctionFactor : ℚ := 2 + robotBlindspot
        let dxStart : ℚ := ((centerLine.start.x - avgLine.start.x : ℤ) : ℚ)
        (deltaX1 + dxStart * correctionFactor) / correctionFactor
      else deltaX1
    let deltaX := clamp deltaX2 (-maxDeltaX) maxDeltaX
    let pwmLimit : ℚ := 255
    let forwardPwm := pwmLimit * forwardSpeed
    let forward_correction :=
      if currentDrivingDirection = DrivingDirection.FORWARD
      then |deltaX| / maxDeltaX * forwardPwm * 2
      else |deltaX| / maxDeltaX * forwardPwm * (5 / 2)
    let reverse_correction :=
      if currentDrivingDirection = DrivingDirection.FORWARD
      then |deltaX| / maxDeltaX * forwardPwm * (-1)
      else |deltaX| / maxDeltaX * forwardPwm * (-3 / 2)
    let leftCorrection := if 0 < deltaX then forward_correction else reverse_correction
    let rightCorrection := if 0 < deltaX then reverse_correction else forward_correction
    let leftSpeed := pyInt (forwardPwm + leftCorrection)
    let rightSpeed := pyInt (forwardPwm + rightCorrection)
    let pair :=
      if currentDrivingDirection = DrivingDirection.BACKWARD
      then (-rightSpeed, -leftSpeed) else (leftSpeed, rightSpeed)
    some (clamp pair.1 (-255) 255, clamp pair.2 (-255) 255)
  | _, _ => none

theorem steeringFromRearview_false (d : Bool) : steeringFromRearview d = false := by
  cases d <;> decide

theorem getDriveCmd_eq_no_blindspot (lL rL : Option Line) (c : Line)
    (sp : ℚ) (d : Bool) :
    getDriveCmd lL rL c sp d = getDriveCmdBlindspotFlag false lL rL c sp d := by
  cases lL with
  | none => rfl
  | some a =>
    cases rL with
    | none => rfl
    | some b =>
      unfold getDriveCmd getDriveCmdBlindspotFlag
      rw [steeringFromRearview_false]

/-- Vertical detected line at x = 100 spanning the frame height. -/
def c3LeftLine : Line := ⟨⟨100, 180⟩, ⟨100, 0⟩, none⟩

/-- Vertical detected line at x = 150 spanning the frame height. -/
def c3RightLine : Line := ⟨⟨150, 180⟩, ⟨150, 0⟩, none⟩

theorem c3_avg_eval :
    Line.avg_line c3LeftLine c3RightLine = ⟨⟨125, 180⟩, ⟨125, 0⟩, none⟩ := by
  unfold Line.avg_line c3LeftLine c3RightLine
  dsimp only
  congr 1
  · congr 1 <;> exact pyInt_eval _ _ (by norm_num)
  · congr 1 <;> exact pyInt_eval _ _ (by norm_num)

theorem c3_uncorrected_eval :
    getDriveCmdBlindspotFlag false (some c3LeftLine) (some c3RightLine) frameCenterLine
      (1 / 5) DrivingDirection.FORWARD = some (45, 61) := by
  unfold getDriveCmdBlindspotFlag
  dsimp only
  rw [c3_avg_eval]
  norm_num [clamp, pyInt, DrivingDirection.FORWARD, DrivingDirection.BACKWARD,
    frameCenterLine]

theorem c3_corrected_eval :
    getDriveCmdBlindspotFlag true (some c3LeftLine) (some c3RightLine) frameCenterLine
      (1 / 5) DrivingDirection.FORWARD = some (57, 47) := by
  unfold getDriveCmdBlindspotFlag
  dsimp only
  rw [c3_avg_eval]
  norm_num [clamp, pyInt, DrivingDirection.FORWARD, DrivingDirection.BACKWARD,
    frameCenterLine]

/-- Claim C3: the blind-spot extrapolation is never applied.  The code derives
its steeringFromRearview flag by comparing the boolean currentDrivingDirection
(0 or 1 as a Python int) with the IntEnum member DRIVING_FROM_REARVIEW (value
3), which is false for both booleans, so getDriveCmd always computes the
uncorrected command — even when steering from the rear camera while driving
forward — although applying the documented correction would change the
command, as the concrete rearview-steering input here shows. -/
theorem c3_blindspot_correction_never_applied :
    (∀ d : Bool, steeringFromRearview d = false)
    ∧ (∀ (lL rL : Option Line) (c : Line) (sp : ℚ) (d : Bool),
        getDriveCmd lL rL c sp d = getDriveCmdBlindspotFlag false lL rL c sp d)
    ∧ getDriveCmd (some c3LeftLine) (some c3RightLine) frameCenterLine (1 / 5)
        DrivingDirection.FORWARD
      ≠ getDriveCmdBlindspotFlag true (some c3LeftLine) (some c3RightLine)
        frameCenterLine (1 / 5) DrivingDirection.FORWARD := by
  refine ⟨steeringFromRearview_false, getDriveCmd_eq_no_blindspot, ?_⟩
  rw [getDriveCmd_eq_no_blindspot, c3_uncorrected_eval, c3_corrected_eval]
  decide

/-- Field names declared by the CvSettings pydantic model (cv_settings.py
lines 6-17); the `swapCameras: bool` line is commented out in the source, so
it is not a declared field. -/
def cvSettingsDeclaredFields : List String :=
  ["minHue", "maxHue", "minSaturation", "maxSaturation", "minValue", "maxValue",
   "closeKernel", "openKernel", "distThreshold", "verticalDilationIterations",
   "r2Threshold"]

/-- Settings attributes read by process_frame (frame_processor.py lines
213-218 for the percentile bounds, 241-255 for the kernels and dilation, 262
for the merge distance and 283 for the R² threshold). -/
def processFrameSettingsFieldsRead : List String :=
  ["hLowerPercentile", "hUpperPercentile", "sLowerPercentile", "sUpperPercentile",
   "vLowerPercentile", "vUpperPercentile", "closeKernel",
   "verticalDilationIterations", "distThreshold", "r2Threshold"]

/-- Settings attribute read by DrivingController.controllerLoop
(driving_controller.py line 149). -/
def controllerLoopSettingsFieldsRead : List String := ["swapCameras"]

/-- Claim C7 failing fields: process_frame reads the six percentile-bound
attributes, none of which CvSettings declares (it declares min/max
hue/saturation/value instead), and controllerLoop reads swapCameras, which is
commented out of CvSettings — so the settings record does not declare every
field the pipeline consumes, and each such access raises AttributeError on the
pydantic model. -/
theorem c7_settings_fields_mismatch :
    "hLowerPercentile" ∈ processFrameSettingsFieldsRead
    ∧ "hLowerPercentile" ∉ cvSettingsDeclaredFields
    ∧ "vUpperPercentile" ∈ processFrameSettingsFieldsRead
    ∧ "vUpperPercentile" ∉ cvSettingsDeclaredFields
    ∧ "swapCameras" ∈ controllerLoopSettingsFieldsRead
    ∧ "swapCameras" ∉ cvSettingsDeclaredFields
    ∧ ¬ (∀ f ∈ processFrameSettingsFieldsRead ++ controllerLoopSettingsFieldsRead,
          f ∈ cvSettingsDeclaredFields) := by
  decide

/-- Lost-context bookkeeping of one controllerLoop iteration
(driving_controller.py lines 159-195): lostContext starts the iteration as
False and is only assigned by the two frame-processing branches, each guarded
by the presence of that camera's frame and by cameraToProcess selecting that
camera.  The frame type is abstract; `lostOf f` stands for
`process_frame(f, settings).lostContext`. -/
def controllerLoopLostContext {α : Type} (frontFrame rearFrame : Option α)
    (cameraToProcess : Bool) (lostOf : α → Bool) : Bool :=
  let lost0 := false
  let lost1 :=
    match frontFrame with
    | some f => if cameraToProcess = CameraDirection.FRONT then lostOf f else lost0
    | none => lost0
  let lost2 :=
    match rearFrame with
    | some f => if cameraToProcess = CameraDirection.REAR then lostOf f else lost1
    | none => lost1
  lost2

/-- Update of drivingState.lastHadContext at the end of the iteration
(driving_controller.py lines 197-199): stamped with the current time whenever
lostContext is false, otherwise left at its previous value. -/
def controllerLoopLastHadContext {α : Type} (frontFrame rearFrame : Option α)
    (cameraToProcess : Bool) (lostOf : α → Bool) (now previous : ℕ) : ℕ :=
  if controllerLoopLostContext frontFrame rearFrame cameraToProcess lostOf = false
  then now else previous

/-- Claim C8: in any controllerLoop iteration in which the camera selected for
processing yields no frame, lostContext keeps its initialized value False and
lastHadContext is stamped with the current time, so camera dropout alone never
lets the lost-context timeout fire. -/
theorem c8_camera_dropout_keeps_context {α : Type} (frontFrame rearFrame : Option α)
    (cameraToProcess : Bool) (lostOf : α → Bool) (now previous : ℕ)
    (h : (if cameraToProcess = CameraDirection.FRONT then frontFrame else rearFrame)
        = none) :
    controllerLoopLostContext frontFrame rearFrame cameraToProcess lostOf = false
    ∧ controllerLoopLastHadContext frontFrame rearFrame cameraToProcess lostOf
        now previous = now := by
  have hlost : controllerLoopLostContext frontFrame rearFrame cameraToProcess lostOf
      = false := by
    unfold controllerLoopLostContext
    cases hc : cameraToProcess
    · rw [hc] at h
      rw [if_neg (by decide : ¬ (false = CameraDirection.FRONT))] at h
      rw [h]
      cases frontFrame with
      | none => rfl
      | some f =>
        simp [CameraDirection.FRONT, CameraDirection.REAR]
    · rw [hc] at h
      rw [if_pos (by decide : (true = CameraDirection.FRONT))] at h
      rw [h]
      cases rearFrame with
      | none => rfl
      | some f =>
        simp [CameraDirection.FRONT, CameraDirection.REAR]
  refine ⟨hlost, ?_⟩
  unfold controllerLoopLastHadContext
  rw [hlost]
  rfl

/-- Witness for the C8 theorem: the rear camera is selected, its frame is
absent, the front camera does deliver a frame whose processing would report
lost context, and still the iteration keeps context and stamps the time. -/
theorem c8_camera_dropout_keeps_context_witness :
    ((if CameraDirection.REAR = CameraDirection.FRONT
        then some true else (none : Option Bool)) = none)
    ∧ (controllerLoopLostContext (some true) (none : Option Bool)
        CameraDirection.REAR (fun b => b) = false
      ∧ controllerLoopLastHadContext (some true) (none : Option Bool)
          CameraDirection.REAR (fun b => b) 7 0 = 7) :=
  ⟨by decide,
   c8_camera_dropout_keeps_context (some true) none CameraDirection.REAR
     (fun b => b) 7 0 (by decide)⟩
